import Mathlib

/-!
Verification development for the tweet2vec preprocessing pipeline
(`preprocess.py`): text normalization (`clean`, `split_hashtags`), the
feature encoder (`text2mat`), the tweet sequence (`TweetIterator`) and the
batch aggregator (`KerasIterator`).

Texts are modelled as `List Char` (ASCII-faithful: `str.lower`, `\w`, `\s`
and the character classes used by the source only act on ASCII for the
inputs considered here).  Numeric matrix entries are modelled as `Int`.
-/

set_option autoImplicit false

deriving instance DecidableEq for Except

namespace Tweet2vec

/-- Python `\s` for ASCII text: space, tab, newline, carriage return,
vertical tab, form feed. -/
def pyIsSpace (c : Char) : Bool :=
  c = ' ' || c = '\t' || c = '\n' || c = '\r' || c = '\x0b' || c = '\x0c'

/-- Python `\S` (non-whitespace). -/
def pyNotSpace (c : Char) : Bool := !(pyIsSpace c)

/-- Python `\w` for ASCII text: letters, digits, underscore. -/
def pyIsWordChar (c : Char) : Bool := c.isAlpha || c.isDigit || c = '_'

/-- The class `[@0-9a-zA-Z]` of `noncharacter_regex` (its complement is
collapsed to a single space by `clean`). -/
def pyIsKeptChar (c : Char) : Bool := c = '@' || c.isDigit || c.isAlpha

/-- Python `str.lower()` (ASCII). -/
def lowerStr (s : List Char) : List Char := s.map Char.toLower

/-- Python `str.strip()`: remove whitespace from both ends. -/
def pyStrip (s : List Char) : List Char :=
  ((s.dropWhile pyIsSpace).reverse.dropWhile pyIsSpace).reverse

/-- Python `str.split()` (no argument): split on whitespace runs,
discarding empty pieces.  `acc` holds the reversed current word. -/
def pySplitGo : List Char → List Char → List (List Char)
  | [], acc => if acc = [] then [] else [acc.reverse]
  | c :: rest, acc =>
    if pyIsSpace c then
      if acc = [] then pySplitGo rest [] else acc.reverse :: pySplitGo rest []
    else
      pySplitGo rest (c :: acc)

def pySplit (s : List Char) : List (List Char) := pySplitGo s []

/-! ### A small backtracking regular-expression engine

Exactly the constructs used by the seven compiled patterns of
`preprocess.py`: the `\A` anchor, literals, single-character classes,
greedy `+` over a character class, `.` (any character except newline),
concatenation and leftmost-first alternation.  Matching follows Python
`re` semantics: alternatives are tried left to right, `+` is greedy with
backtracking, and `sub`/`findall` scan left to right taking
non-overlapping matches.
-/

inductive RE where
  | bos : RE
  | lit : List Char → RE
  | one : (Char → Bool) → RE
  | plus : (Char → Bool) → RE
  | dot : RE
  | seq : RE → RE → RE
  | alt : RE → RE → RE

/-- Backtracking point for greedy `+` over a class: try consuming `i`
characters, for `i` from the longest possible run down to `1`. -/
def tryPlus (k : Nat → List Char → Option (Nat × List Char)) (pos : Nat)
    (s : List Char) : Nat → Option (Nat × List Char)
  | 0 => none
  | i + 1 => k (pos + i + 1) (s.drop (i + 1)) <|> tryPlus k pos s i

/-- Match `r` at absolute position `pos` of the original string, with the
remaining text `s`; on success the continuation `k` receives the new
position and remaining text.  Result: position and remainder after the
whole match, following Python's backtracking order. -/
def reMatch : RE → Nat → List Char →
    (Nat → List Char → Option (Nat × List Char)) → Option (Nat × List Char)
  | .bos, pos, s, k => if pos = 0 then k pos s else none
  | .lit l, pos, s, k =>
    if l.isPrefixOf s then k (pos + l.length) (s.drop l.length) else none
  | .one p, pos, s, k =>
    match s with
    | [] => none
    | c :: rest => if p c then k (pos + 1) rest else none
  | .plus p, pos, s, k => tryPlus k pos s (s.takeWhile p).length
  | .dot, pos, s, k =>
    match s with
    | [] => none
    | c :: rest => if c = '\n' then none else k (pos + 1) rest
  | .seq a b, pos, s, k => reMatch a pos s (fun p2 s2 => reMatch b p2 s2 k)
  | .alt a b, pos, s, k => reMatch a pos s k <|> reMatch b pos s k

/-- Try to match `r` at exactly this position; returns the end position and
the remaining text after the match. -/
def reScan (r : RE) (pos : Nat) (s : List Char) : Option (Nat × List Char) :=
  reMatch r pos s (fun p2 s2 => some (p2, s2))

/-- `re.sub`: scan left to right, replacing each non-overlapping match by
`repl`.  Structural recursion on a fuel counter so that the function
reduces in the kernel; every scan step consumes at least one character
(all patterns of the source match at least one character), so the fuel
`s.length + 1` supplied by `reSub` never runs out. -/
def reSubGo (r : RE) (repl : List Char) : Nat → Nat → List Char → List Char
  | 0, _, s => s
  | _ + 1, _, [] => []
  | fuel + 1, pos, c :: rest =>
    match reScan r pos (c :: rest) with
    | some (p2, s2) => repl ++ reSubGo r repl fuel p2 s2
    | none => c :: reSubGo r repl fuel (pos + 1) rest

def reSub (r : RE) (repl : List Char) (s : List Char) : List Char :=
  reSubGo r repl (s.length + 1) 0 s

/-- `re.findall` for a pattern without groups: the list of matched
substrings, scanning left to right, non-overlapping (fuelled like
`reSubGo`). -/
def reFindGo (r : RE) : Nat → Nat → List Char → List (List Char)
  | 0, _, _ => []
  | _ + 1, _, [] => []
  | fuel + 1, pos, c :: rest =>
    match reScan r pos (c :: rest) with
    | some (p2, s2) =>
      ((c :: rest).take ((c :: rest).length - s2.length)) :: reFindGo r fuel p2 s2
    | none => reFindGo r fuel (pos + 1) rest

def reFindAll (r : RE) (s : List Char) : List (List Char) :=
  reFindGo r (s.length + 1) 0 s

/-! ### The seven compiled patterns of `preprocess.py`
-/

/-- `hashtag_regex = re.compile(r'\A#\w+|\s#\w+')` -/
def hashtagRE : RE :=
  .alt (.seq .bos (.seq (.lit ['#']) (.plus pyIsWordChar)))
    (.seq (.one pyIsSpace) (.seq (.lit ['#']) (.plus pyIsWordChar)))

/-- `mention_regex = re.compile(r'\A@\w+|\s@\w+')` -/
def mentionRE : RE :=
  .alt (.seq .bos (.seq (.lit ['@']) (.plus pyIsWordChar)))
    (.seq (.one pyIsSpace) (.seq (.lit ['@']) (.plus pyIsWordChar)))

/-- `email_regex = re.compile(r'\S+@\S+.\S+')` (the `.` is an unescaped
"any character but newline"). -/
def emailRE : RE :=
  .seq (.plus pyNotSpace)
    (.seq (.lit ['@']) (.seq (.plus pyNotSpace) (.seq .dot (.plus pyNotSpace))))

/-- `url_regex = re.compile(r'\Ahttp\S+|\shttp\S+')` -/
def urlRE : RE :=
  .alt (.seq .bos (.seq (.lit ['h', 't', 't', 'p']) (.plus pyNotSpace)))
    (.seq (.one pyIsSpace) (.seq (.lit ['h', 't', 't', 'p']) (.plus pyNotSpace)))

/-- `retweet_regex = re.compile(r'\Art\s|\srt\s')` -/
def retweetRE : RE :=
  .alt (.seq .bos (.seq (.lit ['r', 't']) (.one pyIsSpace)))
    (.seq (.one pyIsSpace) (.seq (.lit ['r', 't']) (.one pyIsSpace)))

/-- `noncharacter_regex = re.compile(r'[^@0-9a-zA-Z]+')` -/
def noncharRE : RE := .plus (fun c => !(pyIsKeptChar c))

/-- `multspace_regex = re.compile(r'\s+')` -/
def multspaceRE : RE := .plus pyIsSpace

/-! ### `clean` and `split_hashtags`
-/

/-- `url_regex.sub(' httpurl', t)` -/
def urlSub (s : List Char) : List Char := reSub urlRE " httpurl".toList s

/-- `noncharacter_regex.sub(' ', t)` -/
def noncharSub (s : List Char) : List Char := reSub noncharRE [' '] s

/-- `email_regex.sub(' email@address ', t)` -/
def emailSub (s : List Char) : List Char := reSub emailRE " email@address ".toList s

/-- `mention_regex.sub(' @user', t)` -/
def mentionSub (s : List Char) : List Char := reSub mentionRE " @user".toList s

/-- `retweet_regex.sub(' ', t)` -/
def retweetSub (s : List Char) : List Char := reSub retweetRE [' '] s

/-- `multspace_regex.sub(' ', t)` -/
def multspaceSub (s : List Char) : List Char := reSub multspaceRE [' '] s

/-- `clean(tweet)` from `preprocess.py` (single-text primitive), with the
passes applied in the source's order: lowercase, URL, non-character
collapse, email, mention, retweet, whitespace collapse, strip. -/
def clean (tweet : List Char) : List Char :=
  pyStrip (multspaceSub (retweetSub (mentionSub (emailSub (noncharSub
    (urlSub (lowerStr tweet)))))))

/-- `split_hashtags(tweet)` (single-text primitive): returns the tweet with
hashtag spans removed, and the list of `'#' + clean(match)` hashtags with
bare `'#'` results discarded. -/
def split_hashtags (tweet : List Char) : List Char × List (List Char) :=
  let hs := (reFindAll hashtagRE tweet).map (fun h => '#' :: clean h)
  let hs2 := hs.filter (fun h => h ≠ ['#'])
  (reSub hashtagRE [] tweet, hs2)

/-! ### The feature encoder `text2mat`

`char_options = string.ascii_lowercase + string.digits + string.punctuation`
in exactly that order; the punctuation block is written here by ASCII code
to avoid any escaping ambiguity.
-/

/-- Python's `string.punctuation` (32 ASCII characters, in order). -/
def pyPunctuation : List Char :=
  ([33, 34, 35, 36, 37, 38, 39, 40, 41, 42, 43, 44, 45, 46, 47,
    58, 59, 60, 61, 62, 63, 64,
    91, 92, 93, 94, 95, 96,
    123, 124, 125, 126] : List Nat).map Char.ofNat

/-- The Character Vocabulary: lowercase letters, digits, punctuation. -/
def char_options : List Char :=
  "abcdefghijklmnopqrstuvwxyz0123456789".toList ++ pyPunctuation

/-- An all-zero row of width `char_options.length` (= 68). -/
def zeroRow : List Int := char_options.map (fun _ => 0)

/-- `row[j] = 1`, other entries unchanged (models `M[i, c_pos] = 1`). -/
def setOne : List Int → Nat → List Int
  | [], _ => []
  | _ :: xs, 0 => 1 :: xs
  | x :: xs, j + 1 => x :: setOne xs j

/-- `row[j] += 1`, other entries unchanged (models `M[i, c_pos] += 1`). -/
def bumpRow : List Int → Nat → List Int
  | [], _ => []
  | x :: xs, 0 => (x + 1) :: xs
  | x :: xs, j + 1 => x :: bumpRow xs j

/-- One step of the `chrd` inner loop: `if c in char_options_set:
M[i, char_options.index(c)] += 1`. -/
def chrdAddChar (row : List Int) (c : Char) : List Int :=
  if c ∈ char_options then bumpRow row (char_options.indexOf c) else row

/-- The `chrd` row built for one word by the inner loop of `text2mat`. -/
def chrdWordRow (w : List Char) : List Int := w.foldl chrdAddChar zeroRow

/-- Row `i` of the `char` matrix: one-hot of the `i`-th character of the
lowercased-and-stripped text if it is in the vocabulary, else zero. -/
def charRow (t : List Char) (i : Nat) : List Int :=
  match t.get? i with
  | some c => if c ∈ char_options then setOne zeroRow (char_options.indexOf c) else zeroRow
  | none => zeroRow

/-- The `mat_type='char'` branch of `text2mat`: `text.lower().strip()`,
shape `(max_chars, len(char_options))`. -/
def charMat (text : List Char) (max_chars : Nat) : List (List Int) :=
  let t := pyStrip (lowerStr text)
  (List.range max_chars).map (charRow t)

/-- The external word2vec store: a read-only token-to-vector map with a
fixed dimension (`w2v.layer1_size`). -/
structure W2V where
  dim : Nat
  find : List Char → Option (List Int)
  find_dim : ∀ w v, find w = some v → v.length = dim

/-- Row `i` of the `word` matrix: the embedding vector of the `i`-th token
if the store knows it, else zero. -/
def wordRow (w2v : W2V) (tokens : List (List Char)) (i : Nat) : List Int :=
  match tokens.get? i with
  | some w =>
    match w2v.find w with
    | some v => v
    | none => List.replicate w2v.dim 0
  | none => List.replicate w2v.dim 0

/-- The `mat_type='word'` branch of `text2mat`: the text is additionally
passed through `clean`, shape `(max_words, w2v.dim)`. -/
def wordMat (w2v : W2V) (text : List Char) (max_words : Nat) : List (List Int) :=
  let tokens := pySplit (clean (pyStrip (lowerStr text)))
  (List.range max_words).map (wordRow w2v tokens)

/-- Row `i` of the `chrd` matrix: per-character occurrence counts of the
`i`-th token, restricted to the vocabulary. -/
def chrdRow (tokens : List (List Char)) (i : Nat) : List Int :=
  match tokens.get? i with
  | some w => chrdWordRow w
  | none => zeroRow

/-- The `mat_type='chrd'` branch of `text2mat`: tokens of
`text.lower().strip()` (NOT of `clean(text)`), shape
`(max_words, len(char_options))`. -/
def chrdMat (text : List Char) (max_words : Nat) : List (List Int) :=
  let tokens := pySplit (pyStrip (lowerStr text))
  (List.range max_words).map (chrdRow tokens)

/-- `text2mat(text, mat_type, max_chars, max_words)`.  For a `mat_type`
other than the three supported ones the local `M` is never assigned and
the function fails (`UnboundLocalError`), modelled as `none`. -/
def text2mat (w2v : W2V) (text : List Char) (mat_type : String)
    (max_chars max_words : Nat) : Option (List (List Int)) :=
  if mat_type = "char" then some (charMat text max_chars)
  else if mat_type = "word" then some (wordMat w2v text max_words)
  else if mat_type = "chrd" then some (chrdMat text max_words)
  else none

/-! ### The module-level collaborators

`preprocess.py` loads two process-wide read-only resources at import time:
the word2vec store `w2v` and the `MultiLabelBinarizer` `mlb` (with
`valid_hashtags = set(mlb.classes_)` when loaded, else the empty set).
They are modelled as an explicit context threaded through every call.
Referencing `mlb` when it was never loaded is a Python `NameError`.
-/

inductive PyErr where
  | nameError : PyErr
  | indexError : Int → Nat → PyErr
  | stopIteration : PyErr
  | zeroDivisionError : PyErr
deriving DecidableEq

structure Ctx where
  mlb : Option (List (List Char))
  w2v : W2V

/-- `valid_hashtags`: the classes of the binarizer when it is loaded, the
empty set otherwise (Python truthiness: the empty set disables filtering). -/
def Ctx.validHashtags (ctx : Ctx) : List (List Char) := ctx.mlb.getD []

/-- `mlb.transform([hashtags])` (boundary contract): the binary row over the
binarizer's fixed class order. -/
def mlbTransform (classes : List (List Char)) (hashtags : List (List Char)) : List Nat :=
  classes.map (fun cl => if cl ∈ hashtags then 1 else 0)

/-- One value a `TweetIterator` can yield for one requested field. -/
inductive Val where
  | hashtags : List (List Char) → Val
  | rawTweet : List Char → Val
  | rawTweetNohashtags : List Char → Val
  | tokenizedTweet : List (List Char) → Val
  | cleanTweet : List Char → Val
  | wordMat : List (List Int) → Val
  | charMat : List (List Int) → Val
  | chrdMat : List (List Int) → Val
  | label : List Nat → Val
deriving DecidableEq

/-- One element yielded by iteration: the bare value when exactly one field
was produced, else the tuple. -/
inductive Item where
  | single : Val → Item
  | tuple : List Val → Item
deriving DecidableEq

/-- The valid `yield_list` options, in the order listed in
`TweetIterator.__init__`. -/
def ywOptions : List String :=
  ["hashtags", "raw_tweet", "raw_tweet_nohashtags", "tokenized_tweet",
   "clean_tweet", "word_mat", "char_mat", "chrd_mat", "label"]

/-- `__init__`'s filtering of the requested fields: invalid names are
dropped (with a warning), valid names are kept in REQUESTED order. -/
def initYieldList (requested : List String) : List String :=
  requested.filter (fun yw => yw ∈ ywOptions)

/-- The hashtags of one text after the `valid_hashtags` filter of
`yield_` (no filtering when no binarizer is loaded). -/
def filteredHashtags (ctx : Ctx) (text : List Char) : List (List Char) :=
  let hs := (split_hashtags text).2
  if ctx.validHashtags ≠ [] then hs.filter (fun h => h ∈ ctx.validHashtags) else hs

/-- Does this text survive the skip-if-no-hashtag filter? -/
def survives (ctx : Ctx) (text : List Char) : Bool :=
  !(filteredHashtags ctx text).isEmpty

/-- One `elif` arm of the `yield_` loop.  `ok none` = the name matches no
arm (nothing appended); `error` = referencing the unloaded `mlb` raises
`NameError`. -/
def fieldValOpt (ctx : Ctx) (text tweet : List Char)
    (hashtags : List (List Char)) (yw : String) : Except PyErr (Option Val) :=
  if yw = "hashtags" then .ok (some (.hashtags hashtags))
  else if yw = "raw_tweet" then .ok (some (.rawTweet (pyStrip text)))
  else if yw = "raw_tweet_nohashtags" then .ok (some (.rawTweetNohashtags tweet))
  else if yw = "clean_tweet" then .ok (some (.cleanTweet (clean tweet)))
  else if yw = "tokenized_tweet" then .ok (some (.tokenizedTweet (pySplit (clean tweet))))
  else if yw = "word_mat" then .ok (some (.wordMat (wordMat ctx.w2v tweet 30)))
  else if yw = "char_mat" then .ok (some (.charMat (charMat tweet 140)))
  else if yw = "chrd_mat" then .ok (some (.chrdMat (chrdMat tweet 30)))
  else if yw = "label" then
    match ctx.mlb with
    | some classes => .ok (some (.label (mlbTransform classes hashtags)))
    | none => .error .nameError
  else .ok none

/-- The `for yw in self.yield_list` loop of `yield_`. -/
def yieldGo (ctx : Ctx) (text tweet : List Char) (hashtags : List (List Char)) :
    List String → Except PyErr (List Val)
  | [] => .ok []
  | yw :: rest =>
    match fieldValOpt ctx text tweet hashtags yw with
    | .error e => .error e
    | .ok none => yieldGo ctx text tweet hashtags rest
    | .ok (some v) =>
      match yieldGo ctx text tweet hashtags rest with
      | .error e => .error e
      | .ok vs => .ok (v :: vs)

/-- `TweetIterator.yield_(text)`: split hashtags, filter them against the
vocabulary, return `[]` for a skipped item, else the requested values. -/
def yieldOne (ctx : Ctx) (yl : List String) (skip_nohashtag : Bool)
    (text : List Char) : Except PyErr (List Val) :=
  if (filteredHashtags ctx text).length = 0 && skip_nohashtag then .ok []
  else yieldGo ctx text (split_hashtags text).1 (filteredHashtags ctx text) yl

/-- `__iter__`'s wrapping of one produced list: nothing for `[]`, the bare
value for a singleton, else the tuple. -/
def itemOfVals : List Val → Option Item
  | [] => none
  | [v] => some (.single v)
  | vs => some (.tuple vs)

/-- The state of one `TweetIterator` instance (the source is modelled as
an in-memory list of lines; `length` is the memo of `__len__`, `False`
when not yet computed). -/
structure TweetIterator where
  source : List (List Char)
  skip_nohashtag : Bool
  yield_list : List String
  length : Option Nat
deriving DecidableEq

/-- A freshly constructed `TweetIterator` (after `__init__`). -/
def mkTI (source : List (List Char)) (skip_nohashtag : Bool)
    (requested : List String) : TweetIterator :=
  ⟨source, skip_nohashtag, initYieldList requested, none⟩

/-- `TweetIterator.__init__` as a fallible operation: it never fails (it
only warns about unknown fields or a missing binarizer). -/
def initTI (source : List (List Char)) (skip_nohashtag : Bool)
    (requested : List String) : Except PyErr TweetIterator :=
  .ok (mkTI source skip_nohashtag requested)

/-- One full pass of `__iter__`: every line's produced values, skipped
items dropped, a raised exception aborting the pass. -/
def iterItemsGo (ctx : Ctx) (yl : List String) (skip_nohashtag : Bool) :
    List (List Char) → Except PyErr (List Item)
  | [] => .ok []
  | t :: rest =>
    match yieldOne ctx yl skip_nohashtag t with
    | .error e => .error e
    | .ok yw =>
      match iterItemsGo ctx yl skip_nohashtag rest with
      | .error e => .error e
      | .ok tail =>
        match itemOfVals yw with
        | none => .ok tail
        | some it => .ok (it :: tail)

def iterItems (ctx : Ctx) (ti : TweetIterator) : Except PyErr (List Item) :=
  iterItemsGo ctx ti.yield_list ti.skip_nohashtag ti.source

/-- The `while j <= i: t = next(iter_)` scan of `__getitem__`: the `n`-th
non-skipped item, `StopIteration` when the fresh iterator is exhausted
before reaching it. -/
def scanNth (ctx : Ctx) (yl : List String) (skip_nohashtag : Bool) :
    List (List Char) → Nat → Except PyErr Item
  | [], _ => .error .stopIteration
  | t :: rest, n =>
    match yieldOne ctx yl skip_nohashtag t with
    | .error e => .error e
    | .ok yw =>
      match itemOfVals yw with
      | none => scanNth ctx yl skip_nohashtag rest n
      | some it =>
        match n with
        | 0 => .ok it
        | m + 1 => scanNth ctx yl skip_nohashtag rest m

/-- Modelled from the spec: `countLines` lives in the repository's
`utils.py`, which is not part of the sources here.  Per the spec it is "a
cheap line-count probe on the underlying source": the number of
lines/elements of the raw source. -/
def countLines (source : List (List Char)) : Nat := source.length

/-- The value `__len__` computes on a cache miss: with skipping active, a
full pass of `TweetIterator(source, True, 'hashtags')` counts the lines
that survive the skip filter; without skipping, `countLines(source)`. -/
def tiLenValue (ctx : Ctx) (ti : TweetIterator) : Nat :=
  if ti.skip_nohashtag then (ti.source.filter (fun t => survives ctx t)).length
  else countLines ti.source

/-- `__len__` with its memo: returns the length and the updated instance
(`self.length` set on first use). -/
def tiLen (ctx : Ctx) (ti : TweetIterator) : Nat × TweetIterator :=
  match ti.length with
  | some n => (n, ti)
  | none =>
    let n := tiLenValue ctx ti
    (n, { ti with length := some n })

/-- The index adjustment `if i < 0: i = i % len(self)` of `__getitem__`
(Python `%` = `Int.emod`, nonnegative for a positive modulus). -/
def pyIndex (i : Int) (L : Nat) : Int :=
  if i < 0 then i % (L : Int) else i

/-- `TweetIterator.__getitem__` for an integer index: negative indices are
reduced modulo the length (Python `%`, `ZeroDivisionError` on length 0),
indices at or beyond the length raise `IndexError(i, len)`, otherwise a
fresh iterator is advanced `i + 1` times. -/
def getItem (ctx : Ctx) (ti : TweetIterator) (i : Int) : Except PyErr Item :=
  if i < 0 ∧ (tiLen ctx ti).1 = 0 then .error .zeroDivisionError
  else if ((tiLen ctx ti).1 : Int) ≤ pyIndex i (tiLen ctx ti).1 then
    .error (.indexError (pyIndex i (tiLen ctx ti).1) (tiLen ctx ti).1)
  else
    scanNth ctx ti.yield_list ti.skip_nohashtag ti.source
      (pyIndex i (tiLen ctx ti).1).toNat

/-! ### The batch aggregator `KerasIterator`
-/

/-- The field list `KerasIterator.__init__` passes to its
`TweetIterator`: the enabled matrix types, then `'label'`. -/
def kerasMatTypes (char chrd word : Bool) : List String :=
  (if char then ["char_mat"] else []) ++ (if chrd then ["chrd_mat"] else []) ++
    (if word then ["word_mat"] else []) ++ ["label"]

/-- The `TweetIterator` a `KerasIterator` wraps: skipping active, matrix
fields plus label. -/
def mkKerasTI (source : List (List Char)) (char chrd word : Bool) : TweetIterator :=
  mkTI source true (kerasMatTypes char chrd word)

/-- The inner `for outs in iter_` loop of `KerasIterator.__iter__` over one
pass: accumulate items, emit a batch whenever the count reaches
`batch_size`; returns the emitted batches and the leftover accumulation. -/
def kerasPassGo {α : Type} (batch_size : Nat) (acc : List α) :
    List α → List (List α) × List α
  | [] => ([], acc)
  | x :: rest =>
    let acc2 := acc ++ [x]
    if acc2.length = batch_size then
      let out := kerasPassGo batch_size [] rest
      (acc2 :: out.1, out.2)
    else kerasPassGo batch_size acc2 rest

/-- One full pass including the `if i > 0` flush of a nonempty partial
batch at the natural end of the pass. -/
def kerasOnePass {α : Type} (batch_size : Nat) (acc : List α) (items : List α) :
    List (List α) × List α :=
  if (kerasPassGo batch_size acc items).2.length > 0 then
    ((kerasPassGo batch_size acc items).1 ++ [(kerasPassGo batch_size acc items).2], [])
  else kerasPassGo batch_size acc items

/-- `p` passes of the outer `for iter_ in self.iter` loop (`self.iter =
repeat(self.tweet_iterator)` restarts the same sequence forever), threading
the accumulator state across pass boundaries. -/
def kerasRun {α : Type} (batch_size : Nat) (items : List α) :
    Nat → List α → List (List α)
  | 0, _ => []
  | p + 1, acc =>
    let out := kerasOnePass batch_size acc items
    out.1 ++ kerasRun batch_size items p out.2

/-- All batches emitted during the first `p` passes of the infinite
iteration. -/
def kerasBatches {α : Type} (batch_size : Nat) (items : List α) (p : Nat) :
    List (List α) :=
  kerasRun batch_size items p []

/-! ### Spec-side comparison definitions and concrete fixtures
-/

/-- The value the `yield_` loop appends for one VALID field name: this is
the per-field payload of `fieldValOpt`, as a total function (for
`"label"` it reads the loaded binarizer's classes). -/
def valOf (ctx : Ctx) (text : List Char) (yw : String) : Val :=
  let tweet := (split_hashtags text).1
  let hashtags := filteredHashtags ctx text
  if yw = "hashtags" then .hashtags hashtags
  else if yw = "raw_tweet" then .rawTweet (pyStrip text)
  else if yw = "raw_tweet_nohashtags" then .rawTweetNohashtags tweet
  else if yw = "clean_tweet" then .cleanTweet (clean tweet)
  else if yw = "tokenized_tweet" then .tokenizedTweet (pySplit (clean tweet))
  else if yw = "word_mat" then .wordMat (wordMat ctx.w2v tweet 30)
  else if yw = "char_mat" then .charMat (charMat tweet 140)
  else if yw = "chrd_mat" then .chrdMat (chrdMat tweet 30)
  else .label (mlbTransform (ctx.mlb.getD []) hashtags)

/-- The `chrd` matrix as the spec describes it (for comparison with the
source's `chrdMat`): row `i` = per-character occurrence counts of the
`i`-th whitespace token OF THE CLEANED TEXT `clean(text)`. -/
def chrdSpecMat (text : List Char) (max_words : Nat) : List (List Int) :=
  (List.range max_words).map (chrdRow (pySplit (clean text)))

/-- Per-item production as the claim describes it: the valid requested
fields rearranged into the fixed canonical field order (the order of
`ywOptions`) before being built. -/
def yieldOneCanonical (ctx : Ctx) (req : List String) (skip : Bool)
    (text : List Char) : Except PyErr (List Val) :=
  yieldOne ctx (ywOptions.filter (fun yw => yw ∈ initYieldList req)) skip text

/-- `clean` with the pass order asserted by the claim: the email and
mention substitutions run BEFORE the generic non-character collapse
(URL first, then email, then mention, then the collapse; the remaining
passes as in the source). -/
def cleanClaimOrder (tweet : List Char) : List Char :=
  pyStrip (multspaceSub (retweetSub (noncharSub (mentionSub (emailSub
    (urlSub (lowerStr tweet)))))))

/-- `clean` with the URL substitution moved AFTER the generic collapse
(all other passes in the source's order). -/
def cleanUrlAfterCollapse (tweet : List Char) : List Char :=
  pyStrip (multspaceSub (retweetSub (mentionSub (emailSub (urlSub
    (noncharSub (lowerStr tweet)))))))

/-- The four sample tweets bundled in `preprocess.py` (`test_tweets`). -/
def test_tweets : List String :=
  ["RT @realDonaldTrump: A Clinton economy = more taxes and more spending! #DebateNight https://t.co/oFlaAhrwe5",
   "RT @NimbleNavgater: Literally TENS of people showed up to see Hillary and Tim Kaine today in PA! #WeHateHillary #CrookedHillary https://t.c…",
   "RT @AP: Nielsen estimates Clinton speech watched by 29.8 million people; 32.2 million watched Trump at RNC. https://t.co/S5CtwXj29A",
   "#FreeLeonardPelter @BarackObama @POTUS Please do the right thing. Let him spend his last days at home. https://t.co/b4DCFy78mi"]

/-! ### Concrete fixtures used by witnesses and counterexamples
-/

/-- A concrete embedding store that knows no token (dimension 2). -/
def w2v0 : W2V := ⟨2, fun _ => none, fun _ _ h => nomatch h⟩

/-- Context with no binarizer loaded. -/
def ctx0 : Ctx := ⟨none, w2v0⟩

/-- Context with a binarizer whose only class is `#ok`. -/
def ctx1 : Ctx := ⟨some ["#ok".toList], w2v0⟩

/-- A 3-line source of which lines 1 and 3 carry the recognized hashtag. -/
def src3 : List (List Char) :=
  ["a #ok x".toList, "no tags here".toList, "#ok y".toList]

/-- A source of 7 qualifying items for the batch-aggregator example. -/
def src7 : List (List Char) :=
  ["#ok a".toList, "#ok b".toList, "#ok c".toList, "#ok d".toList,
   "#ok e".toList, "#ok f".toList, "#ok g".toList]

/-- The `TweetIterator` wrapped by `KerasIterator(src7, batch_size=3)`
with all three matrix types enabled. -/
def keras7TI : TweetIterator := mkKerasTI src7 true true true

/-- The items of one pass of that iterator (it yields without error, see
`c4_theorem`). -/
def items7 : List Item :=
  match iterItems ctx1 keras7TI with
  | .ok l => l
  | .error _ => []

/-! ### Supporting lemmas: rows of the feature matrices
-/

theorem rangeMap_get? {α : Type} (f : Nat → α) {n i : Nat} (h : i < n) :
    ((List.range n).map f).get? i = some (f i) := by
  rw [List.get?_map, List.get?_range h, Option.map_some']

theorem char_options_nodup : char_options.Nodup := by decide

theorem zeroRow_get? {j : Nat} {c : Char} (hc : char_options.get? j = some c) :
    zeroRow.get? j = some 0 := by
  unfold zeroRow; rw [List.get?_map, hc, Option.map_some']

theorem bumpRow_get? (row : List Int) (k j : Nat) :
    (bumpRow row k).get? j
      = if k = j then (row.get? j).map (· + 1) else row.get? j := by
  induction row generalizing k j with
  | nil => cases k <;> cases j <;> simp [bumpRow]
  | cons x xs ih =>
    cases k with
    | zero => cases j with
      | zero => simp [bumpRow]
      | succ j => simp [bumpRow]
    | succ k =>
      cases j with
      | zero => simp [bumpRow]
      | succ j => simpa [bumpRow] using ih k j

theorem indexOf_eq_iff_of_get? {c ch : Char} {j : Nat}
    (hc : char_options.get? j = some c) (hch : ch ∈ char_options) :
    char_options.indexOf ch = j ↔ ch = c := by
  obtain ⟨hj, hget⟩ := List.get?_eq_some.1 hc
  have hidx : char_options.indexOf ch < char_options.length :=
    List.indexOf_lt_length.2 hch
  constructor
  · intro h
    have := List.indexOf_get (a := ch) (l := char_options) hidx
    rw [← this, ← hget]
    exact congrArg _ (Fin.ext h)
  · intro h
    subst h
    have h1 := List.indexOf_get (a := ch) (l := char_options) hidx
    have h2 : char_options.get ⟨char_options.indexOf ch, hidx⟩
        = char_options.get ⟨j, hj⟩ := by rw [h1, hget]
    have := (char_options_nodup.get_inj_iff).1 h2
    exact congrArg Fin.val this

theorem chrdAddChar_get? (row : List Int) (ch c : Char) (j : Nat)
    (hc : char_options.get? j = some c) :
    (chrdAddChar row ch).get? j
      = if ch = c then (row.get? j).map (· + 1) else row.get? j := by
  unfold chrdAddChar
  by_cases hch : ch ∈ char_options
  · rw [if_pos hch, bumpRow_get?,
      if_congr (indexOf_eq_iff_of_get? hc hch) rfl rfl]
  · rw [if_neg hch, if_neg (fun he => hch (by rw [he]; exact List.get?_mem hc))]

theorem foldl_chrdAddChar_get? (w : List Char) (row : List Int) (c : Char)
    (j : Nat) (hc : char_options.get? j = some c) :
    (w.foldl chrdAddChar row).get? j
      = (row.get? j).map (· + (w.count c : Int)) := by
  induction w generalizing row with
  | nil =>
    cases h : row.get? j <;> (rw [List.foldl_nil, h]; simp)
  | cons ch w ih =>
    rw [List.foldl_cons, ih (chrdAddChar row ch),
      chrdAddChar_get? row ch c j hc]
    by_cases h : ch = c
    · subst h
      rw [if_pos rfl, List.count_cons_self]
      cases row.get? j <;> simp <;> ring
    · rw [if_neg h, List.count_cons_of_ne (fun he => h he.symm)]

theorem chrdWordRow_get? (w : List Char) (c : Char) (j : Nat)
    (hc : char_options.get? j = some c) :
    (chrdWordRow w).get? j = some ((w.count c : Int)) := by
  unfold chrdWordRow
  rw [foldl_chrdAddChar_get? w zeroRow c j hc, zeroRow_get? hc,
    Option.map_some']
  simp

/-! ### Supporting lemmas: shapes of the feature matrices
-/

theorem setOne_length (l : List Int) (j : Nat) : (setOne l j).length = l.length := by
  induction l generalizing j with
  | nil => rfl
  | cons x xs ih => cases j with
    | zero => rfl
    | succ j => simpa [setOne] using ih j

theorem bumpRow_length (l : List Int) (j : Nat) : (bumpRow l j).length = l.length := by
  induction l generalizing j with
  | nil => rfl
  | cons x xs ih => cases j with
    | zero => rfl
    | succ j => simpa [bumpRow] using ih j

theorem zeroRow_length : zeroRow.length = char_options.length := by
  simp [zeroRow]

theorem charRow_length (t : List Char) (i : Nat) :
    (charRow t i).length = char_options.length := by
  unfold charRow
  cases t.get? i with
  | none => exact zeroRow_length
  | some c =>
    by_cases h : c ∈ char_options
    · simp [h, setOne_length, zeroRow_length]
    · simp [h, zeroRow_length]

theorem chrdAddChar_length (row : List Int) (c : Char) :
    (chrdAddChar row c).length = row.length := by
  unfold chrdAddChar
  split <;> simp [bumpRow_length]

theorem foldl_chrdAddChar_length (w : List Char) (row : List Int) :
    (w.foldl chrdAddChar row).length = row.length := by
  induction w generalizing row with
  | nil => rfl
  | cons c w ih => rw [List.foldl_cons, ih, chrdAddChar_length]

theorem chrdWordRow_length (w : List Char) :
    (chrdWordRow w).length = char_options.length := by
  unfold chrdWordRow
  rw [foldl_chrdAddChar_length, zeroRow_length]

theorem chrdRow_length (tokens : List (List Char)) (i : Nat) :
    (chrdRow tokens i).length = char_options.length := by
  unfold chrdRow
  cases tokens.get? i with
  | none => exact zeroRow_length
  | some w => exact chrdWordRow_length w

theorem wordRow_length (w2v : W2V) (tokens : List (List Char)) (i : Nat) :
    (wordRow w2v tokens i).length = w2v.dim := by
  unfold wordRow
  cases tokens.get? i with
  | none => simp
  | some w =>
    cases h : w2v.find w with
    | none => simp [h]
    | some v => simpa [h] using w2v.find_dim w v h

theorem foldl_chrdAddChar_oov (w : List Char) (row : List Int)
    (h : ∀ c ∈ w, c ∉ char_options) : w.foldl chrdAddChar row = row := by
  induction w generalizing row with
  | nil => rfl
  | cons c w ih =>
    rw [List.foldl_cons]
    have hc : chrdAddChar row c = row := by
      unfold chrdAddChar
      rw [if_neg (h c (List.mem_cons_self c w))]
    rw [hc]
    exact ih row (fun c2 hc2 => h c2 (List.mem_cons_of_mem c hc2))

/-! ### Supporting lemmas: the yield layer of `TweetIterator`
-/

/-- Every name kept by `__init__` is a valid option. -/
theorem initYieldList_valid (req : List String) :
    ∀ yw ∈ initYieldList req, yw ∈ ywOptions := by
  intro yw hyw
  unfold initYieldList at hyw
  exact of_decide_eq_true (List.mem_filter.1 hyw).2

theorem yieldGo_ok (ctx : Ctx) (text : List Char) (yl : List String)
    (hv : ∀ yw ∈ yl, yw ∈ ywOptions)
    (hl : "label" ∈ yl → ctx.mlb.isSome) :
    yieldGo ctx text (split_hashtags text).1 (filteredHashtags ctx text) yl
      = .ok (yl.map (valOf ctx text)) := by
  induction yl with
  | nil => rfl
  | cons yw rest ih =>
    have hyw : yw ∈ ywOptions := hv yw (List.mem_cons_self yw rest)
    have hrest : ∀ y ∈ rest, y ∈ ywOptions :=
      fun y hy => hv y (List.mem_cons_of_mem yw hy)
    have hlrest : "label" ∈ rest → ctx.mlb.isSome :=
      fun h => hl (List.mem_cons_of_mem yw h)
    have ih2 := ih hrest hlrest
    simp only [ywOptions, List.mem_cons, List.not_mem_nil, or_false] at hyw
    rcases hyw with h | h | h | h | h | h | h | h | h <;> subst h
    · simp [yieldGo, fieldValOpt, ih2, valOf]
    · simp [yieldGo, fieldValOpt, ih2, valOf]
    · simp [yieldGo, fieldValOpt, ih2, valOf]
    · simp [yieldGo, fieldValOpt, ih2, valOf]
    · simp [yieldGo, fieldValOpt, ih2, valOf]
    · simp [yieldGo, fieldValOpt, ih2, valOf]
    · simp [yieldGo, fieldValOpt, ih2, valOf]
    · simp [yieldGo, fieldValOpt, ih2, valOf]
    · obtain ⟨cls, hcls⟩ := Option.isSome_iff_exists.1
        (hl (List.mem_cons_self _ rest))
      simp [yieldGo, fieldValOpt, hcls, ih2, valOf]

theorem survives_false_of_length_eq {ctx : Ctx} {t : List Char}
    (h0 : (filteredHashtags ctx t).length = 0) : survives ctx t = false := by
  unfold survives
  rw [List.length_eq_zero.1 h0]
  rfl

theorem survives_true_of_length_ne {ctx : Ctx} {t : List Char}
    (h0 : (filteredHashtags ctx t).length ≠ 0) : survives ctx t = true := by
  unfold survives
  cases hfe : filteredHashtags ctx t with
  | nil => exact absurd (by rw [hfe]; rfl) h0
  | cons a l => rfl

theorem yieldOne_ok (ctx : Ctx) (yl : List String) (skip : Bool)
    (text : List Char)
    (hv : ∀ yw ∈ yl, yw ∈ ywOptions)
    (hl : "label" ∈ yl → ctx.mlb.isSome)
    (hns : (filteredHashtags ctx text).length ≠ 0 ∨ skip = false) :
    yieldOne ctx yl skip text = .ok (yl.map (valOf ctx text)) := by
  unfold yieldOne
  have hcond : (decide ((filteredHashtags ctx text).length = 0) && skip) = false := by
    rcases hns with h | h
    · simp [h]
    · simp [h]
  simp only [hcond, Bool.false_eq_true, if_false]
  exact yieldGo_ok ctx text yl hv hl

/-- A skipped item produces the empty list. -/
theorem yieldOne_skipped (ctx : Ctx) (yl : List String) (text : List Char)
    (h : (filteredHashtags ctx text).length = 0) :
    yieldOne ctx yl true text = .ok [] := by
  unfold yieldOne
  simp [h]

theorem yieldGo_label_missing (ctx : Ctx) (text tweet : List Char)
    (hashtags : List (List Char)) (yl : List String)
    (hmlb : ctx.mlb = none) (hl : "label" ∈ yl) :
    yieldGo ctx text tweet hashtags yl = .error .nameError := by
  induction yl with
  | nil => cases hl
  | cons yw rest ih =>
    by_cases h : yw = "label"
    · subst h
      simp [yieldGo, fieldValOpt, hmlb]
    · have hl2 : "label" ∈ rest := by
        rcases List.mem_cons.1 hl with he | hm
        · exact absurd he.symm h
        · exact hm
      have hok : ∃ o, fieldValOpt ctx text tweet hashtags yw = .ok o := by
        unfold fieldValOpt
        -- `split_ifs` discharges the `yw = "label"` branch using `h`
        split_ifs
        any_goals exact ⟨_, rfl⟩
      obtain ⟨o, ho⟩ := hok
      cases o with
      | none => simp [yieldGo, ho, ih hl2]
      | some v => simp [yieldGo, ho, ih hl2]

/-- A nonempty produced list yields an item. -/
theorem itemOfVals_ne_nil (l : List Val) (h : l ≠ []) :
    ∃ it, itemOfVals l = some it := by
  cases l with
  | nil => exact absurd rfl h
  | cons v vs =>
    cases vs with
    | nil => exact ⟨.single v, rfl⟩
    | cons v2 vs2 => exact ⟨.tuple (v :: v2 :: vs2), rfl⟩

/-- The number of items one pass over the source yields: with skipping
active, the number of lines surviving the filter; without, all lines
(provided at least one valid field is requested and the label, if
requested, has its binarizer). -/
theorem iterItemsGo_ok (ctx : Ctx) (yl : List String) (skip : Bool)
    (hne : yl ≠ [])
    (hv : ∀ yw ∈ yl, yw ∈ ywOptions)
    (hl : "label" ∈ yl → ctx.mlb.isSome) :
    ∀ texts : List (List Char),
      ∃ l, iterItemsGo ctx yl skip texts = .ok l
        ∧ l.length = (if skip
            then (texts.filter (fun t => survives ctx t)).length
            else texts.length) := by
  intro texts
  induction texts with
  | nil => exact ⟨[], rfl, by cases skip <;> rfl⟩
  | cons t rest ih =>
    obtain ⟨l, hl2, hlen⟩ := ih
    by_cases hsk : (filteredHashtags ctx t).length = 0 ∧ skip = true
    · obtain ⟨h0, hs⟩ := hsk
      subst hs
      have hy := yieldOne_skipped ctx yl t h0
      have hsurv := survives_false_of_length_eq h0
      refine ⟨l, ?_, ?_⟩
      · simp [iterItemsGo, hy, hl2, itemOfVals]
      · simp [List.filter_cons, hsurv] at hlen ⊢
        exact hlen
    · have hns : (filteredHashtags ctx t).length ≠ 0 ∨ skip = false := by
        by_cases h0 : (filteredHashtags ctx t).length = 0
        · right
          cases hb : skip with
          | false => rfl
          | true => exact absurd ⟨h0, hb⟩ hsk
        · left; exact h0
      have hy := yieldOne_ok ctx yl skip t hv hl hns
      obtain ⟨it, hit⟩ := itemOfVals_ne_nil (yl.map (valOf ctx t))
        (fun hcontra => hne (List.map_eq_nil.1 hcontra))
      refine ⟨it :: l, ?_, ?_⟩
      · simp [iterItemsGo, hy, hl2, hit]
      · by_cases hb : skip = true
        · have h0 : (filteredHashtags ctx t).length ≠ 0 := by
            rcases hns with h | h
            · exact h
            · rw [h] at hb; cases hb
          have hsurv := survives_true_of_length_ne h0
          rw [hb] at hlen ⊢
          simp only [eq_self_iff_true, if_true] at hlen ⊢
          simp [List.filter_cons, hsurv, hlen]
        · have hb2 : skip = false := by
            cases hbv : skip
            · rfl
            · exact absurd hbv hb
          rw [hb2] at hlen ⊢
          simp only [Bool.false_eq_true, if_false] at hlen ⊢
          simp [hlen]

/-- The `__getitem__` scan succeeds exactly on indices below the number of
items a pass yields. -/
theorem scanNth_ok (ctx : Ctx) (yl : List String) (skip : Bool)
    (hne : yl ≠ [])
    (hv : ∀ yw ∈ yl, yw ∈ ywOptions)
    (hl : "label" ∈ yl → ctx.mlb.isSome) :
    ∀ (texts : List (List Char)) (n : Nat),
      n < (if skip then (texts.filter (fun t => survives ctx t)).length
           else texts.length) →
      ∃ it, scanNth ctx yl skip texts n = .ok it := by
  intro texts
  induction texts with
  | nil =>
    intro n hn
    exfalso
    cases skip <;> simp at hn
  | cons t rest ih =>
    intro n hn
    by_cases hsk : (filteredHashtags ctx t).length = 0 ∧ skip = true
    · obtain ⟨h0, hs⟩ := hsk
      subst hs
      have hy := yieldOne_skipped ctx yl t h0
      have hsurv := survives_false_of_length_eq h0
      have hn2 : n < (if true then (rest.filter (fun t => survives ctx t)).length
          else rest.length) := by
        simpa [List.filter_cons, hsurv] using hn
      obtain ⟨it, hit⟩ := ih n hn2
      exact ⟨it, by simp [scanNth, hy, itemOfVals, hit]⟩
    · have hns : (filteredHashtags ctx t).length ≠ 0 ∨ skip = false := by
        by_cases h0 : (filteredHashtags ctx t).length = 0
        · right
          cases hb : skip with
          | false => rfl
          | true => exact absurd ⟨h0, hb⟩ hsk
        · left; exact h0
      have hy := yieldOne_ok ctx yl skip t hv hl hns
      obtain ⟨it, hit⟩ := itemOfVals_ne_nil (yl.map (valOf ctx t))
        (fun hcontra => hne (List.map_eq_nil.1 hcontra))
      cases n with
      | zero => exact ⟨it, by simp [scanNth, hy, hit]⟩
      | succ m =>
        have hm : m < (if skip
            then (rest.filter (fun t => survives ctx t)).length
            else rest.length) := by
          by_cases hb : skip = true
          · have h0 : (filteredHashtags ctx t).length ≠ 0 := by
              rcases hns with h | h
              · exact h
              · rw [h] at hb; cases hb
            have hsurv := survives_true_of_length_ne h0
            rw [hb] at hn ⊢
            simp only [eq_self_iff_true, if_true] at hn ⊢
            rw [List.filter_cons] at hn
            simp only [hsurv, eq_self_iff_true, if_true, List.length_cons] at hn
            omega
          · have hb2 : skip = false := by
              cases hbv : skip
              · rfl
              · exact absurd hbv hb
            rw [hb2] at hn ⊢
            simp only [Bool.false_eq_true, if_false, List.length_cons] at hn ⊢
            omega
        obtain ⟨it2, hit2⟩ := ih m hm
        exact ⟨it2, by simp [scanNth, hy, hit, hit2]⟩

/-! ### Supporting lemmas: the batch aggregator
-/

theorem kerasPassGo_spec {α : Type} (bs : Nat) (hbs : 0 < bs) :
    ∀ (items acc : List α), acc.length < bs →
      ((kerasPassGo bs acc items).1).map List.length
          = List.replicate ((acc.length + items.length) / bs) bs
      ∧ (kerasPassGo bs acc items).2.length = (acc.length + items.length) % bs := by
  intro items
  induction items with
  | nil =>
    intro acc hacc
    constructor
    · simp [kerasPassGo, Nat.div_eq_of_lt hacc]
    · simp [kerasPassGo, Nat.mod_eq_of_lt hacc]
  | cons x rest ih =>
    intro acc hacc
    simp only [kerasPassGo]
    by_cases hfull : (acc ++ [x]).length = bs
    · rw [if_pos hfull]
      obtain ⟨ih1, ih2⟩ := ih [] hbs
      simp only [List.length_nil, Nat.zero_add] at ih1 ih2
      have hsum : acc.length + (x :: rest).length = rest.length + bs := by
        simp only [List.length_append, List.length_cons, List.length_nil] at hfull ⊢
        omega
      constructor
      · show ((acc ++ [x]) :: (kerasPassGo bs [] rest).1).map List.length = _
        rw [List.map_cons, hfull, ih1, hsum, Nat.add_div_right _ hbs,
          List.replicate_succ]
      · show (kerasPassGo bs [] rest).2.length = _
        rw [ih2, hsum, Nat.add_mod_right]
    · rw [if_neg hfull]
      have hlt : (acc ++ [x]).length < bs := by
        simp only [List.length_append, List.length_cons, List.length_nil] at hfull ⊢
        omega
      obtain ⟨ih1, ih2⟩ := ih (acc ++ [x]) hlt
      have hnum : (acc ++ [x]).length + rest.length
          = acc.length + (x :: rest).length := by
        simp only [List.length_append, List.length_cons, List.length_nil]
        omega
      constructor
      · rw [ih1, hnum]
      · rw [ih2, hnum]

theorem kerasPassGo_join {α : Type} (bs : Nat) :
    ∀ (items acc : List α),
      ((kerasPassGo bs acc items).1).flatten ++ (kerasPassGo bs acc items).2
        = acc ++ items := by
  intro items
  induction items with
  | nil => intro acc; simp [kerasPassGo]
  | cons x rest ih =>
    intro acc
    simp only [kerasPassGo]
    by_cases hfull : (acc ++ [x]).length = bs
    · rw [if_pos hfull]
      show ((acc ++ [x]) :: (kerasPassGo bs [] rest).1).flatten
          ++ (kerasPassGo bs [] rest).2 = _
      rw [List.flatten_cons, List.append_assoc, ih []]
      simp
    · rw [if_neg hfull]
      rw [ih (acc ++ [x])]
      simp

theorem kerasOnePass_snd {α : Type} (bs : Nat) (acc items : List α) :
    (kerasOnePass bs acc items).2 = [] := by
  unfold kerasOnePass
  by_cases h : (kerasPassGo bs acc items).2.length > 0
  · rw [if_pos h]
  · rw [if_neg h]
    exact List.eq_nil_of_length_eq_zero (by omega)

theorem kerasPassGo_zero {α : Type} : ∀ (items acc : List α),
    kerasPassGo 0 acc items = ([], acc ++ items) := by
  intro items
  induction items with
  | nil => intro acc; simp [kerasPassGo]
  | cons x rest ih =>
    intro acc
    simp only [kerasPassGo]
    rw [if_neg (by simp), ih (acc ++ [x])]
    simp

theorem kerasOnePass_sizes {α : Type} (bs : Nat) (items : List α) :
    ((kerasOnePass bs ([] : List α) items).1).map List.length
      = List.replicate (items.length / bs) bs
        ++ (if items.length % bs = 0 then [] else [items.length % bs]) := by
  rcases Nat.eq_zero_or_pos bs with hz | hbs
  · subst hz
    have hz2 := kerasPassGo_zero items ([] : List α)
    rw [List.nil_append] at hz2
    unfold kerasOnePass
    rw [hz2]
    by_cases hn : items = []
    · subst hn; simp
    · have hpos : 0 < items.length := List.length_pos.2 hn
      rw [if_pos (by simpa using hpos)]
      simp [Nat.mod_zero, Nat.div_zero, Nat.pos_iff_ne_zero.1 hpos]
  · obtain ⟨h1, h2⟩ := kerasPassGo_spec bs hbs items [] hbs
    simp only [List.length_nil, Nat.zero_add] at h1 h2
    unfold kerasOnePass
    by_cases h : (kerasPassGo bs [] items).2.length > 0
    · rw [if_pos h, if_neg (by omega), List.map_append, h1]
      simp [h2]
    · rw [if_neg h, if_pos (by omega), h1]
      simp

theorem kerasOnePass_join {α : Type} (bs : Nat) (items : List α) :
    ((kerasOnePass bs ([] : List α) items).1).flatten = items := by
  have hj := kerasPassGo_join bs items []
  unfold kerasOnePass
  by_cases h : (kerasPassGo bs [] items).2.length > 0
  · rw [if_pos h]
    simp only [List.flatten_append, List.flatten_cons, List.flatten_nil, List.append_nil]
    simpa using hj
  · rw [if_neg h]
    have h2 : (kerasPassGo bs [] items).2 = [] :=
      List.eq_nil_of_length_eq_zero (by omega)
    rw [h2, List.append_nil] at hj
    simpa using hj

theorem kerasRun_replicate {α : Type} (bs : Nat) (items : List α) :
    ∀ p : Nat, kerasRun bs items p []
      = (List.replicate p ((kerasOnePass bs ([] : List α) items).1)).flatten := by
  intro p
  induction p with
  | zero => rfl
  | succ p ih =>
    simp only [kerasRun]
    rw [kerasOnePass_snd, ih, List.replicate_succ, List.flatten_cons]

theorem flatten_replicate_length {α : Type} (p : Nat) (l : List (List α)) :
    ((List.replicate p l).flatten).length = p * l.length := by
  induction p with
  | zero => simp
  | succ p ih =>
    rw [List.replicate_succ, List.flatten_cons, List.length_append, ih,
      Nat.succ_mul, Nat.add_comm]

/-! ### Claim C1: what text the `chrd` matrix tokenizes
-/

/-- Claim C1 is false on the code: for the input `"a!b"` the `chrd` matrix
produced by `text2mat` tokenizes the lowercased-and-stripped RAW text
(one token `a!b`, whose row counts the `!`), not the cleaned text
`clean("a!b") = "a b"` (two tokens, no punctuation counted). -/
theorem c1_counterexample :
    text2mat w2v0 "a!b".toList "chrd" 140 30
      ≠ some (chrdSpecMat "a!b".toList 30) := by decide

/-- Claim C1 (amended): row `i` of the `chrd` feature matrix holds the
per-character occurrence counts — restricted to the Character Vocabulary —
of the `i`-th whitespace-delimited token of the LOWERCASED-AND-STRIPPED
input text as passed to `text2mat` (not of `clean(text)`): entry `(i, j)`
equals the number of occurrences of the `j`-th vocabulary character in
that token; rows beyond the token count are zero, and tokens beyond
`max_words` are truncated (only `max_words` rows exist). -/
theorem c1_theorem (text : List Char) (max_words i j : Nat) (c : Char)
    (hi : i < max_words) (hc : char_options.get? j = some c) :
    ((chrdMat text max_words).get? i).bind (fun r => r.get? j)
      = some (match (pySplit (pyStrip (lowerStr text))).get? i with
              | some w => (w.count c : Int)
              | none => 0) := by
  unfold chrdMat
  rw [rangeMap_get? _ hi, Option.some_bind]
  unfold chrdRow
  cases h : (pySplit (pyStrip (lowerStr text))).get? i with
  | some w => exact chrdWordRow_get? w c j hc
  | none => exact zeroRow_get? hc

/-- Witness for C1: on `"a!b"` (one raw token `a!b`), entry `(0, 36)` — the
column of `'!'` — is `1`, and row `1` is zero at column `0` (`'a'`). -/
theorem c1_witness :
    ((chrdMat "a!b".toList 30).get? 0).bind (fun r => r.get? 36) = some 1
    ∧ ((chrdMat "a!b".toList 30).get? 1).bind (fun r => r.get? 0) = some 0 := by
  constructor
  · have h := c1_theorem "a!b".toList 30 0 36 '!' (by decide) (by decide)
    rw [h]; decide
  · have h := c1_theorem "a!b".toList 30 1 0 'a' (by decide) (by decide)
    rw [h]; decide

/-! ### Claim C2: when the missing-binarizer failure happens
-/

/-- Claim C2 is false on the code: with no `MultiLabelBinarizer` loaded,
constructing a `TweetIterator` requesting `'label'` SUCCEEDS (`__init__`
only warns), and the failure (a `NameError` on the unbound `mlb`) happens
later, during per-item production. -/
theorem c2_counterexample :
    initTI [['x']] false ["label"] = .ok (mkTI [['x']] false ["label"])
    ∧ (mkTI [['x']] false ["label"]).yield_list = ["label"]
    ∧ ctx0.mlb = none
    ∧ yieldOne ctx0 ["label"] false "x".toList = .error .nameError := by
  refine ⟨rfl, by decide, rfl, by decide⟩

/-- Claim C2 (amended): construction never fails — even with no
Vocabulary Encoder configured and `'label'` among the requested fields —
and instead every non-skipped item's production fails with a name
resolution error when the label is built. -/
theorem c2_theorem :
    (∀ (source : List (List Char)) (skip : Bool) (req : List String),
      initTI source skip req = .ok (mkTI source skip req))
    ∧ (∀ (ctx : Ctx) (yl : List String) (skip : Bool) (text : List Char),
      ctx.mlb = none → "label" ∈ yl →
      ((filteredHashtags ctx text).length ≠ 0 ∨ skip = false) →
      yieldOne ctx yl skip text = .error .nameError) := by
  refine ⟨fun _ _ _ => rfl, ?_⟩
  intro ctx yl skip text hmlb hlabel hns
  unfold yieldOne
  have hcond : (decide ((filteredHashtags ctx text).length = 0) && skip) = false := by
    rcases hns with h | h
    · simp [h]
    · simp [h]
  simp only [hcond, Bool.false_eq_true, if_false]
  exact yieldGo_label_missing ctx text (split_hashtags text).1
    (filteredHashtags ctx text) yl hmlb hlabel

/-- Witness for C2: with no binarizer, constructing with fields
`word_mat, label` succeeds and producing the item for `"hello"` fails. -/
theorem c2_witness :
    initTI ["hello".toList] false ["word_mat", "label"]
      = .ok (mkTI ["hello".toList] false ["word_mat", "label"])
    ∧ yieldOne ctx0 ["word_mat", "label"] false "hello".toList
      = .error .nameError := by
  refine ⟨c2_theorem.1 ["hello".toList] false ["word_mat", "label"], ?_⟩
  exact c2_theorem.2 ctx0 ["word_mat", "label"] false "hello".toList rfl
    (by decide) (Or.inr rfl)

/-! ### Claim C3: the order of the yielded fields
-/

/-- Claim C3 is false on the code: requesting `raw_tweet, hashtags` (in
that order) yields the raw tweet FIRST — the requested order — while the
claimed canonical order would put `hashtags` first. -/
theorem c3_counterexample :
    yieldOne ctx0 (initYieldList ["raw_tweet", "hashtags"]) false "x #a".toList
      ≠ yieldOneCanonical ctx0 ["raw_tweet", "hashtags"] false "x #a".toList
    ∧ yieldOne ctx0 (initYieldList ["raw_tweet", "hashtags"]) false "x #a".toList
      = .ok [.rawTweet "x #a".toList, .hashtags [['#', 'a']]]
    ∧ yieldOneCanonical ctx0 ["raw_tweet", "hashtags"] false "x #a".toList
      = .ok [.hashtags [['#', 'a']], .rawTweet "x #a".toList] := by
  refine ⟨by decide, by decide, by decide⟩

/-- Claim C3 (amended): for every non-skipped item, the yielded fields
appear in the ORDER THE CALLER REQUESTED them (invalid names dropped),
one value per valid requested field; with exactly one produced value the
bare value is yielded, with two or more the tuple is. -/
theorem c3_theorem :
    (∀ (ctx : Ctx) (req : List String) (skip : Bool) (text : List Char),
      ("label" ∈ initYieldList req → ctx.mlb.isSome) →
      ((filteredHashtags ctx text).length ≠ 0 ∨ skip = false) →
      yieldOne ctx (initYieldList req) skip text
        = .ok ((initYieldList req).map (valOf ctx text)))
    ∧ (∀ v : Val, itemOfVals [v] = some (.single v))
    ∧ (∀ (v1 v2 : Val) (vs : List Val),
      itemOfVals (v1 :: v2 :: vs) = some (.tuple (v1 :: v2 :: vs))) := by
  refine ⟨?_, fun v => rfl, fun v1 v2 vs => rfl⟩
  intro ctx req skip text hl hns
  exact yieldOne_ok ctx (initYieldList req) skip text
    (initYieldList_valid req) hl hns

/-- Witness for C3: requesting `clean_tweet, hashtags` on `"x #a"` yields
the values in exactly that (requested) order. -/
theorem c3_witness :
    yieldOne ctx0 (initYieldList ["clean_tweet", "hashtags"]) false "x #a".toList
      = .ok ((initYieldList ["clean_tweet", "hashtags"]).map
          (valOf ctx0 "x #a".toList)) :=
  c3_theorem.1 ctx0 ["clean_tweet", "hashtags"] false "x #a".toList
    (fun h => absurd h (by decide)) (Or.inr rfl)

/-! ### Claim C5: the two length strategies and the memo
-/

/-- Claim C5: with skipping active the length of a Tweet Sequence is the
number of lines surviving the skip filter — computed by one full pass of
`TweetIterator(source, True, 'hashtags')` — while with skipping inactive
it is `countLines(source)`, the number of lines of the raw source; the
value is memoized (the second call returns the cached value and instance
unchanged); on the 3-line example source with 2 recognized-hashtag lines
the two strategies give 2 and 3. -/
theorem c5_theorem :
    (∀ (ctx : Ctx) (src : List (List Char)) (req : List String),
      (tiLen ctx (mkTI src true req)).1
        = (src.filter (fun t => survives ctx t)).length)
    ∧ (∀ (ctx : Ctx) (src : List (List Char)) (req : List String),
      (tiLen ctx (mkTI src false req)).1 = countLines src)
    ∧ (∀ (ctx : Ctx) (src : List (List Char)) (req : List String),
      ∃ l, iterItems ctx (mkTI src true ["hashtags"]) = .ok l
        ∧ (tiLen ctx (mkTI src true req)).1 = l.length)
    ∧ (∀ (ctx : Ctx) (ti : TweetIterator),
      tiLen ctx (tiLen ctx ti).2 = tiLen ctx ti
      ∧ (tiLen ctx ti).2.length = some (tiLen ctx ti).1)
    ∧ (tiLen ctx1 (mkTI src3 true ["raw_tweet"])).1 = 2
    ∧ (tiLen ctx1 (mkTI src3 false ["raw_tweet"])).1 = 3 := by
  have hskip : ∀ (ctx : Ctx) (src : List (List Char)) (req : List String),
      (tiLen ctx (mkTI src true req)).1
        = (src.filter (fun t => survives ctx t)).length := by
    intro ctx src req
    simp [tiLen, mkTI, tiLenValue]
  refine ⟨hskip, ?_, ?_, ?_, by decide, by decide⟩
  · intro ctx src req
    simp [tiLen, mkTI, tiLenValue, countLines]
  · intro ctx src req
    have hyl : (mkTI src true ["hashtags"]).yield_list = ["hashtags"] := rfl
    have hv : ∀ yw ∈ (mkTI src true ["hashtags"]).yield_list, yw ∈ ywOptions :=
      initYieldList_valid ["hashtags"]
    obtain ⟨l, hok, hlen⟩ := iterItemsGo_ok ctx
      (mkTI src true ["hashtags"]).yield_list true
      (by rw [hyl]; decide) hv
      (by rw [hyl]; intro h; exact absurd h (by decide)) src
    refine ⟨l, hok, ?_⟩
    rw [hskip ctx src req, hlen]
    simp
  · intro ctx ti
    cases h : ti.length with
    | some n => simp [tiLen, h]
    | none => simp [tiLen, h]

/-! ### Claim C4: the batch aggregator
-/

/-- Claim C4: `KerasIterator`'s iteration cycles over the source forever —
the batches emitted during `p` passes are `p` copies of one pass's
batches, with the accumulator reset at every pass boundary, so the number
of batches grows without bound for a nonempty pass (no exhaustion);
within one pass it emits full batches of exactly `batch_size` items, in
order and covering the whole pass, followed by one final short batch of
`length % batch_size` items whenever the pass length is not a multiple of
`batch_size`; in particular, for the 7-qualifying-item source and batch
size 3, one pass emits batch sizes `[3, 3, 1]`. -/
theorem c4_theorem :
    (∀ (α : Type) (bs : Nat) (items : List α),
      ((kerasOnePass bs ([] : List α) items).1).map List.length
        = List.replicate (items.length / bs) bs
          ++ (if items.length % bs = 0 then [] else [items.length % bs])
      ∧ ((kerasOnePass bs ([] : List α) items).1).flatten = items)
    ∧ (∀ (α : Type) (bs : Nat) (items : List α) (p : Nat),
      kerasBatches bs items p
        = (List.replicate p ((kerasOnePass bs ([] : List α) items).1)).flatten)
    ∧ (∀ (α : Type) (bs : Nat) (items : List α) (p : Nat), items ≠ [] →
      p ≤ (kerasBatches bs items p).length)
    ∧ (∃ items : List Item, iterItems ctx1 keras7TI = .ok items
        ∧ items.length = 7
        ∧ ((kerasOnePass 3 ([] : List Item) items).1).map List.length
            = [3, 3, 1]) := by
  refine ⟨?_, ?_, ?_, ?_⟩
  · intro α bs items
    exact ⟨kerasOnePass_sizes bs items, kerasOnePass_join bs items⟩
  · intro α bs items p
    exact kerasRun_replicate bs items p
  · intro α bs items p hne
    rw [kerasBatches, kerasRun_replicate, flatten_replicate_length]
    have hpass : ((kerasOnePass bs ([] : List α) items).1) ≠ [] := by
      intro hcontra
      apply hne
      rw [← kerasOnePass_join bs items, hcontra]
      rfl
    exact Nat.le_mul_of_pos_right p (List.length_pos.2 hpass)
  · refine ⟨items7, rfl, by decide, by decide⟩

/-- Witness for C4 at the concrete 7-item pass and batch size 3. -/
theorem c4_witness :
    ((kerasOnePass 3 ([] : List Item) items7).1).map List.length
      = List.replicate (items7.length / 3) 3
        ++ (if items7.length % 3 = 0 then [] else [items7.length % 3])
    ∧ 2 ≤ (kerasBatches 3 items7 2).length := by
  constructor
  · exact (c4_theorem.1 Item 3 items7).1
  · exact c4_theorem.2.2.1 Item 3 items7 2 (by decide)

/-! ### Claim C6: indexing — wraparound and the out-of-range condition
-/

/-- Claim C6 is false on the code as stated for EVERY sequence of positive
length: with zero valid requested fields the length is still positive
(`countLines`), but iteration yields nothing, so a negative index fails
with `StopIteration`; likewise, requesting `label` with no binarizer
makes indexing fail with a `NameError`. -/
theorem c6_counterexample :
    (tiLen ctx0 (mkTI [['a']] false [])).1 = 1
    ∧ getItem ctx0 (mkTI [['a']] false []) (-1) = .error .stopIteration
    ∧ getItem ctx0 (mkTI [['a']] false ["label"]) 0 = .error .nameError := by
  refine ⟨by decide, by decide, by decide⟩

/-- Claim C6 (amended): for every Tweet Sequence of positive length built
with at least one valid requested field (and a configured binarizer
whenever `label` is requested), indexing with a negative `i` equals
indexing with `i mod len` and never fails; indexing with `i ≥ len`
(`i ≥ 0`) fails with an index-out-of-range condition reporting the
requested index and the length; and a normal full iteration raises no
condition at all and yields exactly `len` items. -/
theorem c6_theorem (ctx : Ctx) (src : List (List Char)) (skip : Bool)
    (req : List String)
    (hne : (mkTI src skip req).yield_list ≠ [])
    (hlab : "label" ∈ (mkTI src skip req).yield_list → ctx.mlb.isSome)
    (hL : 0 < (tiLen ctx (mkTI src skip req)).1) :
    (∀ i : Int, i < 0 →
      getItem ctx (mkTI src skip req) i
        = getItem ctx (mkTI src skip req)
            (i % ((tiLen ctx (mkTI src skip req)).1 : Int))
      ∧ ∃ it, getItem ctx (mkTI src skip req) i = .ok it)
    ∧ (∀ i : Int, 0 ≤ i → ((tiLen ctx (mkTI src skip req)).1 : Int) ≤ i →
      getItem ctx (mkTI src skip req) i
        = .error (.indexError i (tiLen ctx (mkTI src skip req)).1))
    ∧ (∃ l, iterItems ctx (mkTI src skip req) = .ok l
        ∧ l.length = (tiLen ctx (mkTI src skip req)).1) := by
  have hL0 : (tiLen ctx (mkTI src skip req)).1 ≠ 0 := Nat.pos_iff_ne_zero.1 hL
  have hLZ : ((tiLen ctx (mkTI src skip req)).1 : Int) ≠ 0 := by
    exact_mod_cast hL0
  have hLpos : (0 : Int) < ((tiLen ctx (mkTI src skip req)).1 : Int) := by
    exact_mod_cast hL
  have hbnd : (tiLen ctx (mkTI src skip req)).1
      = (if (mkTI src skip req).skip_nohashtag = true
          then (src.filter (fun t => survives ctx t)).length
          else src.length) := rfl
  have hv : ∀ yw ∈ (mkTI src skip req).yield_list, yw ∈ ywOptions :=
    initYieldList_valid req
  have keyneg : ∀ i : Int, i < 0 →
      getItem ctx (mkTI src skip req) i
        = scanNth ctx (mkTI src skip req).yield_list
            (mkTI src skip req).skip_nohashtag (mkTI src skip req).source
            (i % ((tiLen ctx (mkTI src skip req)).1 : Int)).toNat := by
    intro i hi
    have hp : pyIndex i (tiLen ctx (mkTI src skip req)).1
        = i % ((tiLen ctx (mkTI src skip req)).1 : Int) := by
      unfold pyIndex
      rw [if_pos hi]
    unfold getItem
    rw [if_neg (fun hand => hL0 hand.2), hp,
      if_neg (not_le.2 (Int.emod_lt_of_pos i hLpos))]
  have keynn : ∀ j : Int, ¬ j < 0 → j < ((tiLen ctx (mkTI src skip req)).1 : Int) →
      getItem ctx (mkTI src skip req) j
        = scanNth ctx (mkTI src skip req).yield_list
            (mkTI src skip req).skip_nohashtag (mkTI src skip req).source
            j.toNat := by
    intro j hj0 hjlt
    have hp : pyIndex j (tiLen ctx (mkTI src skip req)).1 = j := by
      unfold pyIndex
      rw [if_neg hj0]
    unfold getItem
    rw [if_neg (fun hand => hj0 hand.1), hp, if_neg (not_le.2 hjlt)]
  refine ⟨?_, ?_, ?_⟩
  · intro i hi
    have hmod0 : 0 ≤ i % ((tiLen ctx (mkTI src skip req)).1 : Int) :=
      Int.emod_nonneg i hLZ
    have hmodlt : i % ((tiLen ctx (mkTI src skip req)).1 : Int)
        < ((tiLen ctx (mkTI src skip req)).1 : Int) :=
      Int.emod_lt_of_pos i hLpos
    constructor
    · rw [keyneg i hi, keynn _ (not_lt.2 hmod0) hmodlt]
    · have hn : (i % ((tiLen ctx (mkTI src skip req)).1 : Int)).toNat
          < (if (mkTI src skip req).skip_nohashtag = true
              then (src.filter (fun t => survives ctx t)).length
              else src.length) := by
        rw [← hbnd]
        omega
      obtain ⟨it, hit⟩ := scanNth_ok ctx (mkTI src skip req).yield_list
        (mkTI src skip req).skip_nohashtag hne hv hlab src
        (i % ((tiLen ctx (mkTI src skip req)).1 : Int)).toNat hn
      exact ⟨it, by rw [keyneg i hi]; exact hit⟩
  · intro i h0 hle
    have hp : pyIndex i (tiLen ctx (mkTI src skip req)).1 = i := by
      unfold pyIndex
      rw [if_neg (not_lt.2 h0)]
    unfold getItem
    rw [if_neg (fun hand => absurd hand.1 (not_lt.2 h0)), hp, if_pos hle]
  · obtain ⟨l, hok, hlen⟩ := iterItemsGo_ok ctx (mkTI src skip req).yield_list
      (mkTI src skip req).skip_nohashtag hne hv hlab src
    exact ⟨l, hok, by rw [hlen, ← hbnd]⟩

/-- Witness for C6 on the 3-line example source (length 2 with skipping):
index `-1` equals index `1` and succeeds, index `2` is out of range
reporting `(2, 2)`, and iteration yields 2 items. -/
theorem c6_witness :
    getItem ctx1 (mkTI src3 true ["raw_tweet"]) (-1)
      = getItem ctx1 (mkTI src3 true ["raw_tweet"]) 1
    ∧ (∃ it, getItem ctx1 (mkTI src3 true ["raw_tweet"]) (-1) = .ok it)
    ∧ getItem ctx1 (mkTI src3 true ["raw_tweet"]) 2
      = .error (.indexError 2 2)
    ∧ (∃ l, iterItems ctx1 (mkTI src3 true ["raw_tweet"]) = .ok l
        ∧ l.length = 2) := by
  have h := c6_theorem ctx1 src3 true ["raw_tweet"] (by decide) (by decide)
    (by decide)
  have hLv : (tiLen ctx1 (mkTI src3 true ["raw_tweet"])).1 = 2 := by decide
  refine ⟨?_, ?_, ?_, ?_⟩
  · have h1 := (h.1 (-1) (by decide)).1
    rw [hLv] at h1
    have h2 : ((-1 : Int) % ((2 : Nat) : Int)) = 1 := by decide
    rw [h2] at h1
    exact h1
  · exact (h.1 (-1) (by decide)).2
  · have h1 := h.2.1 2 (by decide) (by rw [hLv]; decide)
    rw [hLv] at h1
    exact h1
  · obtain ⟨l, hok, hlen⟩ := h.2.2
    exact ⟨l, hok, by rw [hlen, hLv]⟩

/-! ### Claims C7 and C10: shape invariance and the invalid-type failure
-/

/-- Claim C7: for every input text and each of the three matrix variants,
`text2mat` returns (never raises) a matrix of exactly the declared fixed
shape — `(max_chars, len(char_options))` for `char`,
`(max_words, w2v.dim)` for `word`, `(max_words, len(char_options))` for
`chrd`; the empty text yields the all-zero matrix; an out-of-vocabulary
character, an unknown word, and a token with no vocabulary characters
each yield an all-zero row rather than an error. -/
theorem c7_theorem :
    (∀ (w2v : W2V) (text : List Char) (mc mw : Nat),
      text2mat w2v text "char" mc mw = some (charMat text mc)
      ∧ text2mat w2v text "word" mc mw = some (wordMat w2v text mw)
      ∧ text2mat w2v text "chrd" mc mw = some (chrdMat text mw))
    ∧ (∀ (text : List Char) (mc : Nat),
      (charMat text mc).length = mc
      ∧ ∀ r ∈ charMat text mc, r.length = char_options.length)
    ∧ (∀ (w2v : W2V) (text : List Char) (mw : Nat),
      (wordMat w2v text mw).length = mw
      ∧ ∀ r ∈ wordMat w2v text mw, r.length = w2v.dim)
    ∧ (∀ (text : List Char) (mw : Nat),
      (chrdMat text mw).length = mw
      ∧ ∀ r ∈ chrdMat text mw, r.length = char_options.length)
    ∧ (∀ (w2v : W2V) (mc mw : Nat),
      charMat [] mc = List.replicate mc zeroRow
      ∧ wordMat w2v [] mw = List.replicate mw (List.replicate w2v.dim 0)
      ∧ chrdMat [] mw = List.replicate mw zeroRow)
    ∧ (∀ (text : List Char) (mc i : Nat) (c : Char), i < mc →
      (pyStrip (lowerStr text)).get? i = some c → c ∉ char_options →
      (charMat text mc).get? i = some zeroRow)
    ∧ (∀ (w2v : W2V) (text : List Char) (mw i : Nat) (w : List Char), i < mw →
      (pySplit (clean (pyStrip (lowerStr text)))).get? i = some w →
      w2v.find w = none →
      (wordMat w2v text mw).get? i = some (List.replicate w2v.dim 0))
    ∧ (∀ (text : List Char) (mw i : Nat) (w : List Char), i < mw →
      (pySplit (pyStrip (lowerStr text))).get? i = some w →
      (∀ c ∈ w, c ∉ char_options) →
      (chrdMat text mw).get? i = some zeroRow) := by
  refine ⟨?_, ?_, ?_, ?_, ?_, ?_, ?_, ?_⟩
  · intro w2v text mc mw
    refine ⟨rfl, rfl, rfl⟩
  · intro text mc
    refine ⟨by simp [charMat], ?_⟩
    intro r hr
    simp only [charMat, List.mem_map] at hr
    obtain ⟨i, _, hi⟩ := hr
    rw [← hi]
    exact charRow_length _ i
  · intro w2v text mw
    refine ⟨by simp [wordMat], ?_⟩
    intro r hr
    simp only [wordMat, List.mem_map] at hr
    obtain ⟨i, _, hi⟩ := hr
    rw [← hi]
    exact wordRow_length w2v _ i
  · intro text mw
    refine ⟨by simp [chrdMat], ?_⟩
    intro r hr
    simp only [chrdMat, List.mem_map] at hr
    obtain ⟨i, _, hi⟩ := hr
    rw [← hi]
    exact chrdRow_length _ i
  · intro w2v mc mw
    refine ⟨?_, ?_, ?_⟩
    · show (List.range mc).map (charRow []) = List.replicate mc zeroRow
      have he : charRow [] = fun _ => zeroRow := funext fun i => by cases i <;> rfl
      rw [he, List.map_const', List.length_range]
    · show (List.range mw).map (wordRow w2v []) = _
      have he : wordRow w2v [] = fun _ => List.replicate w2v.dim 0 :=
        funext fun i => by cases i <;> rfl
      rw [he, List.map_const', List.length_range]
    · show (List.range mw).map (chrdRow []) = List.replicate mw zeroRow
      have he : chrdRow [] = fun _ => zeroRow := funext fun i => by cases i <;> rfl
      rw [he, List.map_const', List.length_range]
  · intro text mc i c hi hc hoov
    show ((List.range mc).map (charRow (pyStrip (lowerStr text)))).get? i = _
    rw [rangeMap_get? _ hi]
    rw [List.get?_eq_getElem?] at hc
    simp [charRow, hc, hoov]
  · intro w2v text mw i w hi hw hfind
    show ((List.range mw).map
      (wordRow w2v (pySplit (clean (pyStrip (lowerStr text)))))).get? i = _
    rw [rangeMap_get? _ hi]
    rw [List.get?_eq_getElem?] at hw
    simp [wordRow, hw, hfind]
  · intro text mw i w hi hw hoov
    show ((List.range mw).map (chrdRow (pySplit (pyStrip (lowerStr text))))).get? i = _
    rw [rangeMap_get? _ hi]
    simp only [chrdRow, hw, chrdWordRow]
    rw [foldl_chrdAddChar_oov w zeroRow hoov]

/-- Witness for C7 at concrete inputs: the shapes for `"a b"` with the
trivial store; the all-zero matrices for the empty text; a zero row for
the out-of-vocabulary character `' '` at position 1 of `"a b"`; a zero
row for the unknown word `"a"`; and a zero row for the all-out-of-
vocabulary token `"…"` of `"… x"`. -/
theorem c7_witness :
    text2mat w2v0 "a b".toList "char" 5 4 = some (charMat "a b".toList 5)
    ∧ (charMat "a b".toList 5).length = 5
    ∧ (wordMat w2v0 "a b".toList 4).length = 4
    ∧ (chrdMat "a b".toList 4).length = 4
    ∧ charMat [] 3 = List.replicate 3 zeroRow
    ∧ (charMat "a b".toList 5).get? 1 = some zeroRow
    ∧ (wordMat w2v0 "a b".toList 4).get? 0 = some (List.replicate 2 0)
    ∧ (chrdMat "… x".toList 4).get? 0 = some zeroRow := by
  refine ⟨(c7_theorem.1 w2v0 "a b".toList 5 4).1,
    (c7_theorem.2.1 "a b".toList 5).1,
    (c7_theorem.2.2.1 w2v0 "a b".toList 4).1,
    (c7_theorem.2.2.2.1 "a b".toList 4).1,
    c7_theorem.2.2.2.2.1 w2v0 3 4 |>.1,
    c7_theorem.2.2.2.2.2.1 "a b".toList 5 1 ' ' (by decide) (by decide) (by decide),
    ?_, ?_⟩
  · exact c7_theorem.2.2.2.2.2.2.1 w2v0 "a b".toList 4 0 "a".toList
      (by decide) (by decide) rfl
  · exact c7_theorem.2.2.2.2.2.2.2 "… x".toList 4 0 "…".toList
      (by decide) (by decide) (by decide)

/-- Claim C10: `text2mat` is only defined for the matrix types `char`,
`word` and `chrd`; for any other `mat_type` the local result matrix is
never assigned and the call fails (Python `UnboundLocalError`, modelled as
`none`) instead of returning a default-shaped matrix. -/
theorem c10_theorem (w2v : W2V) (text : List Char) (mat_type : String)
    (mc mw : Nat) (h1 : mat_type ≠ "char") (h2 : mat_type ≠ "word")
    (h3 : mat_type ≠ "chrd") :
    text2mat w2v text mat_type mc mw = none := by
  unfold text2mat
  rw [if_neg h1, if_neg h2, if_neg h3]

/-- Witness for C10: the misspelled type `"wrod"` fails. -/
theorem c10_witness : text2mat w2v0 "x".toList "wrod" 140 30 = none :=
  c10_theorem w2v0 "x".toList "wrod" 140 30 (by decide) (by decide) (by decide)

/-! ### Claim C8: the order of the cleaning substitutions
-/

/-- Claim C8 is false on the code: in `clean` the email and mention
substitutions run AFTER the generic non-character collapse, not before.
On `"hi !@bob"` the code collapses `" !"` to a space first, so the
mention substitution then matches ` @bob` and produces `"hi @user"`;
with the claimed order the mention pattern does not match (the `@` is
preceded by `!`), the email pattern does match `!@bob`, and the result
is `"hi email@address"`. -/
theorem c8_counterexample :
    cleanClaimOrder "hi !@bob".toList ≠ clean "hi !@bob".toList
    ∧ clean "hi !@bob".toList = "hi @user".toList
    ∧ cleanClaimOrder "hi !@bob".toList = "hi email@address".toList := by
  refine ⟨by decide, by decide, by decide⟩

/-- Claim C8 (amended): in `clean`, the URL substitution runs before the
generic non-character collapse, while the email and the mention
substitutions run after it (the collapse preserves `@`, so they still
function); `clean` equals the passes applied in the order lowercase, URL,
collapse, email, mention, retweet, whitespace-collapse, strip.  Each
placement is observable: moving the URL substitution after the collapse,
or the email/mention substitutions before it, changes the result on
concrete inputs. -/
theorem c8_theorem :
    (∀ t : List Char,
      clean t = pyStrip (multspaceSub (retweetSub (mentionSub (emailSub
        (noncharSub (urlSub (lowerStr t))))))))
    ∧ clean " http://a".toList ≠ cleanUrlAfterCollapse " http://a".toList
    ∧ clean "go !@jo".toList ≠ cleanClaimOrder "go !@jo".toList :=
  ⟨fun _ => rfl, by decide, by decide⟩

/-! ### Claim C9: idempotence of `clean`
-/

/-- Claim C9 is false on the code: `clean` is not idempotent.  On
`"!httpab"` the first pass collapses `!` to a space, leaving the token
`httpab`, which the URL substitution of a second pass then rewrites to
`httpurl`. -/
theorem c9_counterexample :
    clean (clean "!httpab".toList) ≠ clean "!httpab".toList
    ∧ clean "!httpab".toList = "httpab".toList
    ∧ clean (clean "!httpab".toList) = "httpurl".toList := by
  refine ⟨by decide, by decide, by decide⟩

set_option maxRecDepth 100000 in
/-- Claim C9 (amended): `clean(clean(x)) = clean(x)` holds for the
repository's own test texts (the four `test_tweets` of `preprocess.py`),
though not for arbitrary input. -/
theorem c9_theorem :
    test_tweets.all (fun t => clean (clean t.toList) == clean t.toList) = true := by
  decide

end Tweet2vec
